import Mathlib

/-!
# Verification of luna's code-generation visitor (`src/Visitor.cpp`)

A shallow embedding of the scope-resolution / register-allocation engine and
the AST-to-bytecode lowering handlers of `namespace luna` in `Visitor.cpp`.

Modelling conventions:
* C++ pointers to interned `String` objects are modelled as `Nat` identifiers
  (pointer identity, not character content, is what the code compares).
* `Function *` pointers are modelled as indices into a heap (`List Function`);
  a null pointer is `Option.none`.
* The `NameScope` objects live on the C++ call stack linked through
  `previous_`; the chain reachable from `ScopeNameList::current_scope_` is
  modelled as a `List NameScope`, innermost scope first.
* A null-pointer dereference in the C++ source is modelled as an `Option`
  failure (`none`) of the corresponding operation.
-/

namespace luna

/-- `struct ScopeName { String *name_; int register_; }` — a name bound to a
register inside some scope.  `name_` is the pointer value of the interned
string. -/
structure ScopeName where
  name_ : Nat
  register_ : Nat
deriving DecidableEq, Repr

instance : Inhabited ScopeName := ⟨⟨0, 0⟩⟩

/-- One `NameScope` record: `start_` is the index into the flat name table at
which this scope's names begin, `owner_` the owning `Function *` (a heap
index, `none` for a null pointer).  The `previous_` pointer is represented by
list structure in `ScopeNameList.current_scope_`. -/
structure NameScope where
  start_ : Nat
  owner_ : Option Nat
deriving DecidableEq, Repr

/-- `struct ScopeNameList { std::vector<ScopeName> name_list_; NameScope *current_scope_; }`.
`current_scope_` is the chain of live scopes reachable through `previous_`,
innermost first; an empty list is a null `current_scope_`. -/
structure ScopeNameList where
  name_list_ : List ScopeName
  current_scope_ : List NameScope
deriving DecidableEq, Repr

/-- `std::vector::resize` on the name table: truncates when shrinking and pads
with default-constructed `ScopeName`s when growing (the growing branch is
never reached in well-formed use, where `start_ ≤ size`). -/
def listResize (l : List ScopeName) (n : Nat) : List ScopeName :=
  if n ≤ l.length then l.take n else l ++ List.replicate (n - l.length) default

/-- `NameScope::IsBelongsToScope`: scan the name table from this scope's
`start_` to the end for a pointer-equal name; `some reg` plays the role of
returning `true` with `*reg` written. -/
def IsBelongsToScope (tbl : List ScopeName) (s : NameScope) (name : Nat) : Option Nat :=
  ((tbl.drop s.start_).find? (fun sn => sn.name_ == name)).map ScopeName.register_

/-- `NameScope::GetBlongsToScope`: walk outward from this scope through
`previous_` until a scope whose `IsBelongsToScope` succeeds is found; return
that scope and its owner function, or `none` (the `(nullptr, nullptr)` pair)
when the chain is exhausted. -/
def GetBlongsToScope (tbl : List ScopeName) : List NameScope → Nat → Option (NameScope × Option Nat)
  | [], _ => none
  | s :: prev, name =>
    if (IsBelongsToScope tbl s name).isSome then some (s, s.owner_)
    else GetBlongsToScope tbl prev name

/-- `NameScope::AddScopeName` on the scope `s` (the caller passes the current
innermost scope): if the name is not yet in the scope, append it to the name
table and return `true`; otherwise return `false`, the table untouched, with
the existing register in the out-parameter slot.  The returned `Nat` is the
value of `*reg` after the call. -/
def AddScopeName (snl : ScopeNameList) (s : NameScope) (name : Nat) (reg : Nat) :
    Bool × Nat × ScopeNameList :=
  match IsBelongsToScope snl.name_list_ s name with
  | some r => (false, r, snl)
  | none => (true, reg, { snl with name_list_ := snl.name_list_ ++ [⟨name, reg⟩] })

/-- The `NameScope` constructor: record the current table length as `start_`,
push onto the chain; an omitted (null) `owner` argument inherits
`previous_->owner_`, which dereferences a null pointer — modelled as `none` —
when no scope exists. -/
def openScope (snl : ScopeNameList) (owner : Option Nat) : Option ScopeNameList :=
  let start := snl.name_list_.length
  match owner with
  | some f => some { snl with current_scope_ := ⟨start, some f⟩ :: snl.current_scope_ }
  | none =>
    match snl.current_scope_ with
    | [] => none
    | prev :: _ => some { snl with current_scope_ := ⟨start, prev.owner_⟩ :: snl.current_scope_ }

/-- The `NameScope` destructor: resize the name table back to `start_` and
restore `previous_` as the innermost scope.  The destructor only ever runs on
a live scope, so the empty-chain branch is unreachable. -/
def closeScope (snl : ScopeNameList) : ScopeNameList :=
  match snl.current_scope_ with
  | [] => snl
  | s :: rest => { name_list_ := listResize snl.name_list_ s.start_, current_scope_ := rest }

/-! ## Instructions and the Function context

`Instruction.h`, `Function.h` and `State.h` are not part of `src/`; the
operations the visitor calls on them are modelled from the spec (§4.2, §3). -/

/-- The opcodes referenced by the lowering handlers in `Visitor.cpp`. -/
inductive OpType where
  | LoadConst
  | Move
  | Call
  | SetTop
deriving DecidableEq, Repr

/-- Modelled from the spec: an instruction is an opcode plus up to three small
integer operands, produced once and never mutated (§3).  The handlers only use
the A and B fields. -/
structure Instruction where
  op_code_ : OpType
  param_a_ : Nat
  param_b_ : Nat
deriving DecidableEq, Repr

/-- `Instruction::ACode(op, a)` — one-operand construction. -/
def Instruction.ACode (op : OpType) (a : Nat) : Instruction := ⟨op, a, 0⟩

/-- `Instruction::ABCode(op, a, b)` — two-operand construction. -/
def Instruction.ABCode (op : OpType) (a : Nat) (b : Nat) : Instruction := ⟨op, a, b⟩

/-- A constant-pool entry: a numeric or string literal.  The numeric payload
is abstracted to `Int` (its value plays no role in the lowering rules). -/
inductive ConstValue where
  | num : Int → ConstValue
  | str : Nat → ConstValue
deriving DecidableEq, BEq, Repr

/-- Modelled from the spec: the per-function mutable compilation state (§3) —
stack-top cursor, high-water register count, constant pool, instruction
sequence (each instruction paired with its source line), superior link, and
the base info set by `SetBaseInfo`. -/
structure Function where
  next_register_ : Nat := 0
  register_count_ : Nat := 0
  const_values_ : List ConstValue := []
  instructions_ : List (Instruction × Nat) := []
  superior_ : Option Nat := none
  module_ : Nat := 0
  line_ : Nat := 0
deriving DecidableEq, Repr

instance : Inhabited Function := ⟨{}⟩

/-- `Function::GetNextRegister` — peek the stack-top cursor, no mutation. -/
def Function.GetNextRegister (f : Function) : Nat := f.next_register_

/-- Modelled from the spec: `set_next_register(r)` resets the stack-top
cursor and never lowers the high-water mark (§4.2). -/
def Function.SetNextRegister (f : Function) (reg : Nat) : Function :=
  { f with next_register_ := reg }

/-- Modelled from the spec: `reserve_register` returns `next_register()`, then
increments it by one, updating the high-water mark (§4.2). -/
def Function.AllocaNextRegister (f : Function) : Nat × Function :=
  (f.next_register_,
   { f with next_register_ := f.next_register_ + 1,
            register_count_ := max f.register_count_ (f.next_register_ + 1) })

/-- `Function::GetRegisterCount` — read the high-water register count. -/
def Function.GetRegisterCount (f : Function) : Nat := f.register_count_

/-- Modelled from the spec: the register-count setter.  The spec requires that
`register_high_water_mark` "must never decrease" (§3) and is "non-decreasing
over any sequence of operations" (§8), so the setter clamps from below. -/
def Function.SetRegisterCount (f : Function) (count : Nat) : Function :=
  { f with register_count_ := max f.register_count_ count }

/-- Modelled from the spec: `emit` appends an instruction with its source
line, side-effect only (§4.2). -/
def Function.AddInstruction (f : Function) (i : Instruction) (line : Nat) : Function :=
  { f with instructions_ := f.instructions_ ++ [(i, line)] }

/-- Modelled from the spec: `add_constant` interns a literal into the constant
pool with content-addressed dedup, returning a stable index (§4.2). -/
def Function.addConst (f : Function) (c : ConstValue) : Nat × Function :=
  match f.const_values_.findIdx? (fun x => x == c) with
  | some i => (i, f)
  | none => (f.const_values_.length, { f with const_values_ := f.const_values_ ++ [c] })

/-- `Function::AddConstNumber`. -/
def Function.AddConstNumber (f : Function) (n : Int) : Nat × Function :=
  f.addConst (ConstValue.num n)

/-- `Function::AddConstString`. -/
def Function.AddConstString (f : Function) (s : Nat) : Nat × Function :=
  f.addConst (ConstValue.str s)

/-- `Function::SetSuperior` — link to the lexically enclosing function. -/
def Function.SetSuperior (f : Function) (sup : Option Nat) : Function :=
  { f with superior_ := sup }

/-- `Function::SetBaseInfo(module, line)`. -/
def Function.SetBaseInfo (f : Function) (module : Nat) (line : Nat) : Function :=
  { f with module_ := module, line_ := line }

/-! ## The AST fragment whose handlers are defined in `src/Visitor.cpp`

Only `Chunk`, `Block`, `LocalNameListStatement`, `Terminator`, `NameList`,
`NormalFuncCall` and `ExpressionList` have handler bodies in the source; the
embedded AST is restricted to those node kinds, and a `Terminator` token is a
number or string by construction (any other kind asserts in the handler). -/

/-- The token of a `Terminator` node: a numeric or string literal together
with its source line. -/
inductive TermToken where
  | num : Int → Nat → TermToken
  | str : Nat → Nat → TermToken
deriving DecidableEq, Repr

/-- Source line of a terminator token (`t.line_`). -/
def TermToken.line : TermToken → Nat
  | .num _ l => l
  | .str _ l => l

/-- One identifier token of a `NameList` (`Token_Id` with its string pointer
and source line). -/
structure NameTok where
  str_ : Nat
  line_ : Nat
deriving DecidableEq, Repr

mutual
/-- Expression nodes: `Terminator` and `NormalFuncCall` (caller plus an
argument `ExpressionList` that may be a null pointer). -/
inductive Expr where
  | terminator : TermToken → Expr
  | normalFuncCall : Expr → OptExprList → Expr
deriving DecidableEq, Repr

/-- A possibly-null `ExpressionList *` (`func_call->args_`). -/
inductive OptExprList where
  | noArgs : OptExprList
  | withArgs : ExprList → OptExprList
deriving DecidableEq, Repr

/-- The `exp_list_` vector of an `ExpressionList` node. -/
inductive ExprList where
  | nil : ExprList
  | cons : Expr → ExprList → ExprList
deriving DecidableEq, Repr
end

/-- Number of expressions in an `ExprList`. -/
def ExprList.length : ExprList → Nat
  | .nil => 0
  | .cons _ rest => rest.length + 1

/-- Concatenation of `ExprList`s (used to address the i-th expression). -/
def ExprList.append : ExprList → ExprList → ExprList
  | .nil, ys => ys
  | .cons e rest, ys => .cons e (rest.append ys)

/-- Statement nodes of the implemented fragment: a local-name-list declaration
(`local n1, ... = e1, ...`, with a possibly-null initializer list) or a
function call in statement position. -/
inductive Stmt where
  | localNameList : List NameTok → Option ExprList → Stmt
  | funcCallStat : Expr → OptExprList → Stmt
deriving DecidableEq, Repr

/-- A `Chunk` node: the top-level block plus the module name
(`chunk->module_`, a string pointer). -/
structure Chunk where
  block_ : List Stmt
  module_ : Nat
deriving DecidableEq, Repr

/-! ## The code-generation visitor -/

/-- `CodeGenerateVisitor::NameReg` — a resolved register paired with the
source line of its declaring token (the handler only reads `token_->line_`). -/
structure NameReg where
  register_ : Nat
  line_ : Nat
deriving DecidableEq, Repr

/-- The mutable state of `CodeGenerateVisitor` together with the `State`
function heap: `scope_name_list_`, the transient `names_register_` list, the
current-function pointer `func_` (a heap index, `none` when null), and the
heap of `Function` objects allocated by `State::NewFunction`. -/
structure CGV where
  scope_name_list_ : ScopeNameList
  names_register_ : List NameReg
  func_ : Option Nat
  funcs : List Function
deriving DecidableEq, Repr

/-- Dereference the current-function pointer `func_`. -/
def curFunc (vs : CGV) : Function :=
  match vs.func_ with
  | some i => vs.funcs.getD i default
  | none => default

/-- A mutation `func_->...` through the current-function pointer. -/
def withFunc (vs : CGV) (g : Function → Function) : CGV :=
  match vs.func_ with
  | some i => { vs with funcs := vs.funcs.set i (g (vs.funcs.getD i default)) }
  | none => vs

/-- `Visit(Terminator *)`: intern the literal, allocate one fresh register,
emit a load-constant instruction targeting it.  The token is a number or a
string by construction of `TermToken`. -/
def visitTerminator (t : TermToken) (vs : CGV) : CGV :=
  withFunc vs (fun f =>
    let p := match t with
      | .num n _ => f.AddConstNumber n
      | .str s _ => f.AddConstString s
    let q := p.2.AllocaNextRegister
    q.2.AddInstruction (Instruction.ABCode OpType.LoadConst q.1 p.1) t.line)

/-- The statement pair `func_->SetNextRegister(reg); func_->AddInstruction(
Instruction::ACode(OpType_SetTop, reg), 0)` that appears verbatim in the
`Block`, `LocalNameListStatement`, `NormalFuncCall` and `ExpressionList`
handlers: reset the stack-top cursor to `reg` and emit a set-stack-top
instruction at `reg`. -/
def emitSetTop (reg : Nat) (vs : CGV) : CGV :=
  withFunc vs (fun f =>
    (f.SetNextRegister reg).AddInstruction (Instruction.ACode OpType.SetTop reg) 0)

mutual
/-- Dispatch on an expression node (`exp->Accept(this)`). -/
def visitExpr : Expr → CGV → CGV
  | .terminator t, vs => visitTerminator t vs
  | .normalFuncCall caller args, vs =>
    -- Visit(NormalFuncCall *): record the callee register, load the callee,
    -- fix the argument base, lower the arguments, emit the call.
    let reg := (curFunc vs).GetNextRegister
    let vs1 := visitExpr caller vs
    let vs2 := emitSetTop (reg + 1) vs1
    let vs3 := visitOptExprList args vs2
    withFunc vs3 (fun f => f.AddInstruction (Instruction.ACode OpType.Call reg) 0)

/-- `if (func_call->args_) args_->Accept(this);` -/
def visitOptExprList : OptExprList → CGV → CGV
  | .noArgs, vs => vs
  | .withArgs el, vs => visitExprList el vs

/-- `Visit(ExpressionList *)`: read the base register, then run the loop. -/
def visitExprList (el : ExprList) (vs : CGV) : CGV :=
  visitExprListAux el (curFunc vs).GetNextRegister vs

/-- The `Visit(ExpressionList *)` loop: for each expression, reset the cursor
and stack top to `reg`, lower the expression, advance `reg` by one. -/
def visitExprListAux : ExprList → Nat → CGV → CGV
  | .nil, _, vs => vs
  | .cons e rest, reg, vs => visitExprListAux rest (reg + 1) (visitExpr e (emitSetTop reg vs))
end

/-- The `Visit(NameList *)` loop body for one identifier: take the current
next register as candidate, try `AddScopeName` on the current scope (a null
`current_scope_` never occurs when this handler runs), allocate the register
only when the name was new, and record the resulting register with its
token. -/
def visitNameListName (vs : CGV) (n : NameTok) : CGV :=
  match vs.scope_name_list_.current_scope_ with
  | [] => vs
  | s :: _ =>
    let reg := (curFunc vs).GetNextRegister
    let r := AddScopeName vs.scope_name_list_ s n.str_ reg
    let vs1 := { vs with scope_name_list_ := r.2.2 }
    let vs2 := if r.1 then withFunc vs1 (fun f => f.AllocaNextRegister.2) else vs1
    { vs2 with names_register_ := vs2.names_register_ ++ [⟨r.2.1, n.line_⟩] }

/-- `Visit(NameList *)`: process each identifier in order. -/
def visitNameList (nl : List NameTok) (vs : CGV) : CGV :=
  nl.foldl visitNameListName vs

/-- The move-emission loop of `Visit(LocalNameListStatement *)`: one move per
declared name, copying from the initializer register (`exp_reg`, starting at
the pre-initializer mark and advancing by one) to the declared register. -/
def emitMovesAux (l : List NameReg) (exp_reg : Nat) (vs : CGV) : CGV :=
  match l with
  | [] => vs
  | nr :: rest =>
    emitMovesAux rest (exp_reg + 1)
      (withFunc vs (fun f =>
        f.AddInstruction (Instruction.ABCode OpType.Move nr.register_ exp_reg) nr.line_))

/-- Dispatch on a statement node (`s->Accept(this)`). -/
def visitStmt : Stmt → CGV → CGV
  | .localNameList names el, vs =>
    -- Visit(LocalNameListStatement *)
    let vs1 := visitNameList names vs
    let reg := (curFunc vs1).GetNextRegister
    let reg_count := (curFunc vs1).GetRegisterCount
    let vs2 := match el with
      | none => vs1
      | some el => visitExprList el vs1
    let names_n := vs2.names_register_.length
    let vs3 := withFunc vs2 (fun f => f.SetRegisterCount (reg_count + names_n))
    let vs4 := emitMovesAux vs3.names_register_ reg vs3
    let vs5 := { vs4 with names_register_ := [] }
    emitSetTop reg vs5
  | .funcCallStat caller args, vs => visitExpr (.normalFuncCall caller args) vs

/-- `Visit(Block *)`: open a scope owned by the current function, record the
register top, lower each statement, restore the top, emit a set-stack-top at
the restored value, close the scope (the `NameScope` destructor).  The
constructor can only fail when both `func_` and the scope chain are null,
which never happens under a `Chunk`. -/
def visitBlock (stmts : List Stmt) (vs : CGV) : CGV :=
  match openScope vs.scope_name_list_ vs.func_ with
  | none => vs
  | some snl =>
    let vs0 := { vs with scope_name_list_ := snl }
    let reg := (curFunc vs0).GetNextRegister
    let vs1 := stmts.foldl (fun v s => visitStmt s v) vs0
    let vs2 := emitSetTop reg vs1
    { vs2 with scope_name_list_ := closeScope vs2.scope_name_list_ }

/-- `Visit(Chunk *)`: allocate a fresh `Function` through `State::NewFunction`
(modelled from the spec as appending a default-constructed function to the
heap), set its base info and superior, make it current, and lower the block.
The previously current function is not restored afterwards. -/
def visitChunk (c : Chunk) (vs : CGV) : CGV :=
  let ptr := vs.funcs.length
  let f := (Function.SetBaseInfo default c.module_ 0).SetSuperior vs.func_
  let vs1 := { vs with funcs := vs.funcs ++ [f], func_ := some ptr }
  visitBlock c.block_ vs1

/-! ## A client-side operation language for the scope chain

The spec's scope-truncation property quantifies over sequences of
`open_scope` / `declare` / `close_scope` calls; `ScopeOp` is that operation
alphabet and `runOps` executes it against the `NameScope` primitives above.
A `declare` goes through `current_scope_->AddScopeName` and a `close` runs
the innermost scope's destructor, so both fail (null dereference) when no
scope is open. -/

inductive ScopeOp where
  | openS : Option Nat → ScopeOp
  | declareS : Nat → Nat → ScopeOp
  | closeS : ScopeOp
deriving DecidableEq, Repr

/-- Execute one scope operation. -/
def runOp (snl : ScopeNameList) : ScopeOp → Option ScopeNameList
  | .openS o => openScope snl o
  | .declareS name reg =>
    match snl.current_scope_ with
    | [] => none
    | s :: _ => some (AddScopeName snl s name reg).2.2
  | .closeS =>
    match snl.current_scope_ with
    | [] => none
    | _ :: _ => some (closeScope snl)

/-- Execute a sequence of scope operations. -/
def runOps (snl : ScopeNameList) : List ScopeOp → Option ScopeNameList
  | [] => some snl
  | op :: ops =>
    match runOp snl op with
    | none => none
    | some snl' => runOps snl' ops

/-- A sequence of scope operations in which every `open` is matched by its
`close` in strict LIFO order (declares may appear anywhere). -/
inductive Balanced : List ScopeOp → Prop where
  | nil : Balanced []
  | declare {ops : List ScopeOp} (name reg : Nat) :
      Balanced ops → Balanced (ScopeOp.declareS name reg :: ops)
  | bracket {inner rest : List ScopeOp} (o : Option Nat) :
      Balanced inner → Balanced rest →
      Balanced (ScopeOp.openS o :: (inner ++ ScopeOp.closeS :: rest))

/-! ## Concrete states used by the witnesses -/

/-- A visitor state holding one fresh function, current, as `Visit(Chunk)`
leaves it for the chunk's block. -/
def sampleState : CGV := ⟨⟨[], []⟩, [], some 0, [{}]⟩

/-- The empty initial visitor state (`CodeGenerateVisitor` construction). -/
def initState : CGV := ⟨⟨[], []⟩, [], none, []⟩

/-- An empty chunk node. -/
def chunkEmpty : Chunk := ⟨[], 0⟩

/-- The statement `local a = 1` (name pointer 7, line 1). -/
def stmtLocalA : Stmt :=
  .localNameList [⟨7, 1⟩] (some (.cons (.terminator (.num 1 1)) .nil))

/-- A visitor state in which one scope (owned by function 0) is open and the
name with pointer 5 is already declared in it at register 0; the current
function's next register is 1. -/
def declState : CGV :=
  ⟨⟨[⟨5, 0⟩], [⟨0, some 0⟩]⟩, [], some 0,
   [{ next_register_ := 1, register_count_ := 1 }]⟩

/-! ## Basic lemmas about the state plumbing -/

theorem getD_set_self {α : Type} (l : List α) (i : Nat) (a d : α) (h : i < l.length) :
    (l.set i a).getD i d = a := by
  induction l generalizing i with
  | nil => simp at h
  | cons x xs ih =>
    cases i with
    | zero => rfl
    | succ n => exact ih n (Nat.lt_of_succ_lt_succ h)

theorem set_of_length_le {α : Type} (l : List α) (i : Nat) (a : α) (h : l.length ≤ i) :
    l.set i a = l := by
  induction l generalizing i with
  | nil => rfl
  | cons x xs ih =>
    cases i with
    | zero => simp at h
    | succ n => simpa using ih n (Nat.le_of_succ_le_succ h)

theorem withFunc_func_ (vs : CGV) (g : Function → Function) :
    (withFunc vs g).func_ = vs.func_ := by
  unfold withFunc; cases hf : vs.func_ <;> simp [hf]

theorem withFunc_funcs_length (vs : CGV) (g : Function → Function) :
    (withFunc vs g).funcs.length = vs.funcs.length := by
  unfold withFunc; cases hf : vs.func_ <;> simp [hf]

theorem withFunc_scope (vs : CGV) (g : Function → Function) :
    (withFunc vs g).scope_name_list_ = vs.scope_name_list_ := by
  unfold withFunc; cases hf : vs.func_ <;> simp [hf]

theorem withFunc_names (vs : CGV) (g : Function → Function) :
    (withFunc vs g).names_register_ = vs.names_register_ := by
  unfold withFunc; cases hf : vs.func_ <;> simp [hf]

theorem curFunc_withFunc (vs : CGV) (g : Function → Function) (i : Nat)
    (hf : vs.func_ = some i) (hl : i < vs.funcs.length) :
    curFunc (withFunc vs g) = g (curFunc vs) := by
  unfold curFunc withFunc
  simp only [hf]
  exact getD_set_self _ _ _ _ hl

theorem curFunc_withFunc_cases (vs : CGV) (g : Function → Function) :
    curFunc (withFunc vs g) = g (curFunc vs) ∨ curFunc (withFunc vs g) = curFunc vs := by
  cases hf : vs.func_ with
  | none => right; unfold curFunc withFunc; simp [hf]
  | some i =>
    by_cases hl : i < vs.funcs.length
    · exact Or.inl (curFunc_withFunc vs g i hf hl)
    · right
      unfold curFunc withFunc
      simp only [hf]
      rw [set_of_length_le _ _ _ (Nat.le_of_not_lt hl)]

/-- The state relation preserved by every block-level lowering step: the
current-function pointer, the heap size, the scope chain are unchanged, the
name table is only extended, the current function's register count never
drops and its superior link is untouched. -/
def StepOK (vs vs' : CGV) : Prop :=
  vs'.func_ = vs.func_ ∧
  vs'.funcs.length = vs.funcs.length ∧
  (curFunc vs).register_count_ ≤ (curFunc vs').register_count_ ∧
  (curFunc vs').superior_ = (curFunc vs).superior_ ∧
  vs'.scope_name_list_.current_scope_ = vs.scope_name_list_.current_scope_ ∧
  ∃ ext, vs'.scope_name_list_.name_list_ = vs.scope_name_list_.name_list_ ++ ext

theorem StepOK.refl (vs : CGV) : StepOK vs vs :=
  ⟨rfl, rfl, Nat.le.refl, rfl, rfl, [], by simp⟩

theorem StepOK.trans {a b c : CGV} (h1 : StepOK a b) (h2 : StepOK b c) : StepOK a c := by
  obtain ⟨f1, l1, r1, s1, c1, e1, he1⟩ := h1
  obtain ⟨f2, l2, r2, s2, c2, e2, he2⟩ := h2
  exact ⟨f2.trans f1, l2.trans l1, Nat.le_trans r1 r2, s2.trans s1, c2.trans c1,
         e1 ++ e2, by rw [he2, he1, List.append_assoc]⟩

theorem stepOK_withFunc (vs : CGV) (g : Function → Function)
    (h1 : ∀ f, f.register_count_ ≤ (g f).register_count_)
    (h2 : ∀ f, (g f).superior_ = f.superior_) :
    StepOK vs (withFunc vs g) := by
  refine ⟨withFunc_func_ vs g, withFunc_funcs_length vs g, ?_, ?_,
          by rw [withFunc_scope], [], by rw [withFunc_scope]; simp⟩
  · rcases curFunc_withFunc_cases vs g with h | h
    · rw [h]; exact h1 _
    · rw [h]
  · rcases curFunc_withFunc_cases vs g with h | h
    · rw [h]; exact h2 _
    · rw [h]

theorem addConst_register_count (f : Function) (c : ConstValue) :
    (f.addConst c).2.register_count_ = f.register_count_ := by
  unfold Function.addConst
  cases h : f.const_values_.findIdx? (fun x => x == c) <;> simp [h]

theorem addConst_superior (f : Function) (c : ConstValue) :
    (f.addConst c).2.superior_ = f.superior_ := by
  unfold Function.addConst
  cases h : f.const_values_.findIdx? (fun x => x == c) <;> simp [h]

theorem addConst_next_register (f : Function) (c : ConstValue) :
    (f.addConst c).2.next_register_ = f.next_register_ := by
  unfold Function.addConst
  cases h : f.const_values_.findIdx? (fun x => x == c) <;> simp [h]

theorem addConst_instructions (f : Function) (c : ConstValue) :
    (f.addConst c).2.instructions_ = f.instructions_ := by
  unfold Function.addConst
  cases h : f.const_values_.findIdx? (fun x => x == c) <;> simp [h]

theorem stepOK_emit_top (vs : CGV) (reg : Nat) :
    StepOK vs (emitSetTop reg vs) :=
  stepOK_withFunc _ _
    (by intro f; simp [Function.SetNextRegister, Function.AddInstruction])
    (by intro f; simp [Function.SetNextRegister, Function.AddInstruction])

theorem stepOK_addInstr (vs : CGV) (i : Instruction) (line : Nat) :
    StepOK vs (withFunc vs (fun f => f.AddInstruction i line)) :=
  stepOK_withFunc _ _
    (by intro f; simp [Function.AddInstruction])
    (by intro f; simp [Function.AddInstruction])

theorem stepOK_alloca (vs : CGV) :
    StepOK vs (withFunc vs (fun f => f.AllocaNextRegister.2)) :=
  stepOK_withFunc _ _
    (by intro f; simp [Function.AllocaNextRegister])
    (by intro f; simp [Function.AllocaNextRegister])

theorem stepOK_setCount (vs : CGV) (c : Nat) :
    StepOK vs (withFunc vs (fun f => f.SetRegisterCount c)) :=
  stepOK_withFunc _ _
    (by intro f; simp [Function.SetRegisterCount])
    (by intro f; simp [Function.SetRegisterCount])

theorem stepOK_visitTerminator (t : TermToken) (vs : CGV) :
    StepOK vs (visitTerminator t vs) := by
  unfold visitTerminator
  refine stepOK_withFunc _ _ ?_ ?_ <;> intro f <;> cases t <;>
    simp [Function.AddConstNumber, Function.AddConstString, Function.AddInstruction,
          Function.AllocaNextRegister, addConst_register_count, addConst_superior]

mutual
theorem stepOK_visitExpr : ∀ (e : Expr) (vs : CGV), StepOK vs (visitExpr e vs)
  | .terminator t, vs => by
    rw [visitExpr]
    exact stepOK_visitTerminator t vs
  | .normalFuncCall caller args, vs => by
    rw [visitExpr]
    exact ((stepOK_visitExpr caller vs).trans (stepOK_emit_top _ _)).trans
      ((stepOK_visitOptExprList args _).trans (stepOK_addInstr _ _ _))

theorem stepOK_visitOptExprList : ∀ (a : OptExprList) (vs : CGV), StepOK vs (visitOptExprList a vs)
  | .noArgs, vs => by
    rw [visitOptExprList]
    exact StepOK.refl vs
  | .withArgs el, vs => by
    rw [visitOptExprList, visitExprList]
    exact stepOK_visitExprListAux el _ vs

theorem stepOK_visitExprListAux : ∀ (el : ExprList) (reg : Nat) (vs : CGV),
    StepOK vs (visitExprListAux el reg vs)
  | .nil, _, vs => by
    rw [visitExprListAux]
    exact StepOK.refl vs
  | .cons e rest, reg, vs => by
    rw [visitExprListAux]
    exact ((stepOK_emit_top vs reg).trans (stepOK_visitExpr e _)).trans
      (stepOK_visitExprListAux rest (reg + 1) _)
end

theorem stepOK_setScope (vs : CGV) (snl : ScopeNameList)
    (hchain : snl.current_scope_ = vs.scope_name_list_.current_scope_)
    (hext : ∃ ext, snl.name_list_ = vs.scope_name_list_.name_list_ ++ ext) :
    StepOK vs { vs with scope_name_list_ := snl } :=
  ⟨rfl, rfl, Nat.le.refl, rfl, hchain, hext⟩

theorem stepOK_setNames {a b : CGV} (X : List NameReg) (h : StepOK a b) :
    StepOK a { b with names_register_ := X } := h

theorem stepOK_visitNameListName (vs : CGV) (n : NameTok) :
    StepOK vs (visitNameListName vs n) := by
  unfold visitNameListName
  cases hc : vs.scope_name_list_.current_scope_ with
  | nil => exact StepOK.refl vs
  | cons s rest =>
    rcases hIs : IsBelongsToScope vs.scope_name_list_.name_list_ s n.str_ with _ | r0
    · simp only [AddScopeName, hIs]
      exact stepOK_setNames _
        ((stepOK_setScope vs
          { vs.scope_name_list_ with name_list_ := vs.scope_name_list_.name_list_ ++
              [⟨n.str_, (curFunc vs).GetNextRegister⟩] }
          rfl ⟨_, rfl⟩).trans (stepOK_alloca _))
    · simp only [AddScopeName, hIs]
      exact stepOK_setNames _ (StepOK.refl vs)

theorem stepOK_visitNameList (nl : List NameTok) (vs : CGV) :
    StepOK vs (visitNameList nl vs) := by
  unfold visitNameList
  induction nl generalizing vs with
  | nil => exact StepOK.refl vs
  | cons n rest ih =>
    rw [List.foldl_cons]
    exact (stepOK_visitNameListName vs n).trans (ih _)

theorem stepOK_emitMovesAux (l : List NameReg) (exp_reg : Nat) (vs : CGV) :
    StepOK vs (emitMovesAux l exp_reg vs) := by
  induction l generalizing exp_reg vs with
  | nil => rw [emitMovesAux]; exact StepOK.refl vs
  | cons nr rest ih =>
    rw [emitMovesAux]
    exact (stepOK_addInstr _ _ _).trans (ih _ _)

theorem stepOK_visitExprList (el : ExprList) (vs : CGV) :
    StepOK vs (visitExprList el vs) := by
  rw [visitExprList]; exact stepOK_visitExprListAux _ _ _

theorem visitStmt_funcCallStat (caller : Expr) (args : OptExprList) (vs : CGV) :
    visitStmt (.funcCallStat caller args) vs = visitExpr (.normalFuncCall caller args) vs := rfl

theorem visitStmt_localNameList (names : List NameTok) (el : Option ExprList) (vs : CGV) :
    visitStmt (.localNameList names el) vs =
      (let vs1 := visitNameList names vs
       let reg := (curFunc vs1).GetNextRegister
       let reg_count := (curFunc vs1).GetRegisterCount
       let vs2 := match el with
         | none => vs1
         | some el => visitExprList el vs1
       let names_n := vs2.names_register_.length
       let vs3 := withFunc vs2 (fun f => f.SetRegisterCount (reg_count + names_n))
       let vs4 := emitMovesAux vs3.names_register_ reg vs3
       let vs5 := { vs4 with names_register_ := [] }
       emitSetTop reg vs5) := rfl

theorem stepOK_visitStmt (s : Stmt) (vs : CGV) : StepOK vs (visitStmt s vs) := by
  cases s with
  | funcCallStat caller args =>
    rw [visitStmt_funcCallStat]; exact stepOK_visitExpr _ _
  | localNameList names el =>
    rw [visitStmt_localNameList]
    cases el with
    | none =>
      exact ((((stepOK_visitNameList names vs).trans (stepOK_setCount _ _)).trans
        (stepOK_emitMovesAux _ _ _)).trans (stepOK_setNames [] (StepOK.refl _))).trans
        (stepOK_emit_top _ _)
    | some el =>
      exact (((((stepOK_visitNameList names vs).trans (stepOK_visitExprList el _)).trans
        (stepOK_setCount _ _)).trans
        (stepOK_emitMovesAux _ _ _)).trans (stepOK_setNames [] (StepOK.refl _))).trans
        (stepOK_emit_top _ _)

theorem stepOK_visitStmts (stmts : List Stmt) (vs : CGV) :
    StepOK vs (stmts.foldl (fun v s => visitStmt s v) vs) := by
  induction stmts generalizing vs with
  | nil => exact StepOK.refl vs
  | cons s rest ih =>
    rw [List.foldl_cons]
    exact (stepOK_visitStmt s vs).trans (ih _)

/-- Successful `NameScope` construction pushes exactly one scope whose
`start_` is the current table length. -/
theorem openScope_some (snl : ScopeNameList) (o : Option Nat) (snl' : ScopeNameList)
    (h : openScope snl o = some snl') :
    ∃ ow, snl' = { snl with
      current_scope_ := ⟨snl.name_list_.length, ow⟩ :: snl.current_scope_ } := by
  unfold openScope at h
  cases o with
  | some f => exact ⟨some f, (Option.some.inj h).symm⟩
  | none =>
    cases hc : snl.current_scope_ with
    | nil => rw [hc] at h; simp at h
    | cons prev rest =>
      rw [hc] at h
      exact ⟨prev.owner_, (Option.some.inj h).symm⟩

theorem closeScope_cons (snl : ScopeNameList) (s : NameScope) (rest : List NameScope)
    (h : snl.current_scope_ = s :: rest) :
    closeScope snl = ⟨listResize snl.name_list_ s.start_, rest⟩ := by
  unfold closeScope
  rw [h]

theorem listResize_append (l ext : List ScopeName) : listResize (l ++ ext) l.length = l := by
  unfold listResize
  rw [if_pos (by simp)]
  exact List.take_left l ext

/-- Reduction of `visitBlock` when the `NameScope` constructor fails (null
`func_` and no enclosing scope). -/
theorem visitBlock_none (stmts : List Stmt) (vs : CGV)
    (ho : openScope vs.scope_name_list_ vs.func_ = none) :
    visitBlock stmts vs = vs := by
  rw [visitBlock, ho]

/-- Reduction of `visitBlock` when the `NameScope` constructor succeeds. -/
theorem visitBlock_some (stmts : List Stmt) (vs : CGV) (snl : ScopeNameList)
    (ho : openScope vs.scope_name_list_ vs.func_ = some snl) :
    visitBlock stmts vs =
      (let vs0 := { vs with scope_name_list_ := snl }
       let reg := (curFunc vs0).GetNextRegister
       let vs1 := stmts.foldl (fun v s => visitStmt s v) vs0
       let vs2 := emitSetTop reg vs1
       { vs2 with scope_name_list_ := closeScope vs2.scope_name_list_ }) := by
  rw [visitBlock, ho]

theorem stepOK_visitBlock (stmts : List Stmt) (vs : CGV) :
    StepOK vs (visitBlock stmts vs) := by
  cases ho : openScope vs.scope_name_list_ vs.func_ with
  | none => rw [visitBlock_none stmts vs ho]; exact StepOK.refl vs
  | some snl =>
    obtain ⟨ow, rfl⟩ := openScope_some _ _ _ ho
    rw [visitBlock_some stmts vs _ ho]
    have key : ∀ w : CGV,
        w.func_ = vs.func_ → w.funcs.length = vs.funcs.length →
        (curFunc vs).register_count_ ≤ (curFunc w).register_count_ →
        (curFunc w).superior_ = (curFunc vs).superior_ →
        w.scope_name_list_.current_scope_ =
          ⟨vs.scope_name_list_.name_list_.length, ow⟩ :: vs.scope_name_list_.current_scope_ →
        (∃ ext, w.scope_name_list_.name_list_ = vs.scope_name_list_.name_list_ ++ ext) →
        StepOK vs { w with scope_name_list_ := closeScope w.scope_name_list_ } := by
      rintro w hf hl hr hs hch ⟨ext, htb⟩
      rw [closeScope_cons _ _ _ hch]
      refine ⟨hf, hl, hr, hs, rfl, [], ?_⟩
      rw [htb]
      simp [listResize_append]
    have hA : StepOK
        { vs with scope_name_list_ :=
          { vs.scope_name_list_ with current_scope_ :=
            ⟨vs.scope_name_list_.name_list_.length, ow⟩ :: vs.scope_name_list_.current_scope_ } }
        (emitSetTop (curFunc
            { vs with scope_name_list_ :=
              { vs.scope_name_list_ with current_scope_ :=
                ⟨vs.scope_name_list_.name_list_.length, ow⟩ ::
                  vs.scope_name_list_.current_scope_ } }).GetNextRegister
          (stmts.foldl (fun v s => visitStmt s v)
            { vs with scope_name_list_ :=
              { vs.scope_name_list_ with current_scope_ :=
                ⟨vs.scope_name_list_.name_list_.length, ow⟩ ::
                  vs.scope_name_list_.current_scope_ } })) :=
      (stepOK_visitStmts stmts _).trans (stepOK_emit_top _ _)
    obtain ⟨f1, l1, r1, s1, c1, e1, he1⟩ := hA
    exact key _ f1 l1 r1 s1 c1 ⟨e1, he1⟩

/-! ## Lemmas about the scope-operation language -/

theorem runOps_cons_some {snl snl' : ScopeNameList} {op : ScopeOp} (ops : List ScopeOp)
    (h : runOp snl op = some snl') :
    runOps snl (op :: ops) = runOps snl' ops := by
  rw [runOps, h]

theorem runOps_append_some {snl s : ScopeNameList} {xs : List ScopeOp}
    (h : runOps snl xs = some s) (ys : List ScopeOp) :
    runOps snl (xs ++ ys) = runOps s ys := by
  induction xs generalizing snl with
  | nil =>
    rw [runOps] at h
    rw [List.nil_append, Option.some.inj h]
  | cons op xs ih =>
    cases hop : runOp snl op with
    | none => rw [runOps, hop] at h; exact absurd h (by simp)
    | some mid =>
      rw [runOps_cons_some xs hop] at h
      rw [List.cons_append, runOps_cons_some (xs ++ ys) hop]
      exact ih h

/-- `NameScope` construction succeeds whenever a scope already exists or an
owner is passed, and pushes a scope with `start_` equal to the table length. -/
theorem openScope_isSome (snl : ScopeNameList) (o : Option Nat)
    (h : snl.current_scope_ ≠ [] ∨ o.isSome) :
    ∃ ow, openScope snl o = some
      { snl with current_scope_ := ⟨snl.name_list_.length, ow⟩ :: snl.current_scope_ } := by
  cases o with
  | some f => exact ⟨some f, rfl⟩
  | none =>
    rcases h with h | h
    · cases hc : snl.current_scope_ with
      | nil => exact absurd hc h
      | cons prev rest =>
        refine ⟨prev.owner_, ?_⟩
        unfold openScope
        rw [hc]
    · simp at h

theorem IsBelongsToScope_none (tbl : List ScopeName) (s : NameScope) (name : Nat)
    (h : ∀ sn ∈ tbl, sn.name_ ≠ name) :
    IsBelongsToScope tbl s name = none := by
  unfold IsBelongsToScope
  rw [List.find?_eq_none.mpr]
  · rfl
  · intro sn hsn
    simpa using h sn (List.drop_subset _ _ hsn)

theorem GetBlongsToScope_none (tbl : List ScopeName) (chain : List NameScope) (name : Nat)
    (h : ∀ sn ∈ tbl, sn.name_ ≠ name) :
    GetBlongsToScope tbl chain name = none := by
  induction chain with
  | nil => rfl
  | cons s rest ih =>
    rw [GetBlongsToScope, if_neg, ih]
    rw [IsBelongsToScope_none tbl s name h]
    simp

/-- Running a balanced operation sequence from a state with an open scope
succeeds, leaves the scope chain untouched, and only ever appends to the
name table. -/
theorem runOps_balanced {ops : List ScopeOp} (hb : Balanced ops) :
    ∀ snl : ScopeNameList, snl.current_scope_ ≠ [] →
    ∃ ext, runOps snl ops = some ⟨snl.name_list_ ++ ext, snl.current_scope_⟩ := by
  induction hb with
  | nil =>
    intro snl h
    exact ⟨[], by simp [runOps]⟩
  | @declare ops' name reg hops ih =>
    intro snl h
    cases hc : snl.current_scope_ with
    | nil => exact absurd hc h
    | cons s rest =>
      have hop : runOp snl (ScopeOp.declareS name reg) =
          some (AddScopeName snl s name reg).2.2 := by
        unfold runOp; rw [hc]
      rcases hIs : IsBelongsToScope snl.name_list_ s name with _ | r0
      · have hAdd : (AddScopeName snl s name reg).2.2 =
            { snl with name_list_ := snl.name_list_ ++ [⟨name, reg⟩] } := by
          unfold AddScopeName; rw [hIs]
        obtain ⟨ext, hrun⟩ := ih
          { snl with name_list_ := snl.name_list_ ++ [⟨name, reg⟩] } (by simp [hc])
        refine ⟨⟨name, reg⟩ :: ext, ?_⟩
        rw [runOps_cons_some ops' (hop.trans (congrArg some hAdd)), hrun]
        simp [hc, List.append_assoc]
      · have hAdd : (AddScopeName snl s name reg).2.2 = snl := by
          unfold AddScopeName; rw [hIs]
        obtain ⟨ext, hrun⟩ := ih snl h
        refine ⟨ext, ?_⟩
        rw [runOps_cons_some ops' (hop.trans (congrArg some hAdd)), hrun]
        rw [hc]
  | @bracket inner rest o hinner hrest ihInner ihRest =>
    intro snl h
    obtain ⟨ow, ho⟩ := openScope_isSome snl o (Or.inl h)
    obtain ⟨ext1, hrun1⟩ := ihInner
      { snl with current_scope_ :=
        ⟨snl.name_list_.length, ow⟩ :: snl.current_scope_ } (by simp)
    obtain ⟨ext2, hrun2⟩ := ihRest snl h
    have ho' : runOp snl (ScopeOp.openS o) = some
        { snl with current_scope_ :=
          ⟨snl.name_list_.length, ow⟩ :: snl.current_scope_ } := ho
    refine ⟨ext2, ?_⟩
    rw [runOps_cons_some _ ho', runOps_append_some hrun1]
    have hclose : runOp (⟨snl.name_list_ ++ ext1,
        ⟨snl.name_list_.length, ow⟩ :: snl.current_scope_⟩ : ScopeNameList)
        ScopeOp.closeS = some ⟨snl.name_list_, snl.current_scope_⟩ := by
      unfold runOp
      simp [closeScope, listResize_append]
    rw [runOps_cons_some rest hclose]
    exact hrun2

/-! ## Claim C1 -/

/-- C1: for every sequence of `open_scope`/`declare` calls followed by the
matching `close_scope` (`NameScope` construction and destruction), after the
close the name table (`ScopeNameList.name_list_`) length equals its value
immediately before the matching open, the innermost-scope pointer is restored
to the previous scope, and resolving (`GetBlongsToScope`) any name declared
only inside the closed scope returns absent. -/
theorem c1_scope_truncation (snl : ScopeNameList) (o : Option Nat) (ops : List ScopeOp)
    (name : Nat) (hbal : Balanced ops)
    (hopen : snl.current_scope_ ≠ [] ∨ o.isSome)
    (hname : ∀ sn ∈ snl.name_list_, sn.name_ ≠ name) :
    ∃ snl', runOps snl (ScopeOp.openS o :: (ops ++ [ScopeOp.closeS])) = some snl' ∧
      snl'.name_list_.length = snl.name_list_.length ∧
      snl'.current_scope_ = snl.current_scope_ ∧
      GetBlongsToScope snl'.name_list_ snl'.current_scope_ name = none := by
  obtain ⟨ow, ho⟩ := openScope_isSome snl o hopen
  have ho' : runOp snl (ScopeOp.openS o) = some
      { snl with current_scope_ := ⟨snl.name_list_.length, ow⟩ :: snl.current_scope_ } := ho
  obtain ⟨ext1, hrun1⟩ := runOps_balanced hbal
    { snl with current_scope_ := ⟨snl.name_list_.length, ow⟩ :: snl.current_scope_ } (by simp)
  refine ⟨snl, ?_, rfl, rfl, GetBlongsToScope_none _ _ _ hname⟩
  rw [runOps_cons_some _ ho', runOps_append_some hrun1]
  have hclose : runOp (⟨snl.name_list_ ++ ext1,
      ⟨snl.name_list_.length, ow⟩ :: snl.current_scope_⟩ : ScopeNameList)
      ScopeOp.closeS = some ⟨snl.name_list_, snl.current_scope_⟩ := by
    unfold runOp
    simp [closeScope, listResize_append]
  rw [runOps_cons_some _ hclose, runOps]

/-- Witness for C1: open a scope (inheriting the owner), declare name 7 in
it, close it; the state is restored and name 7 no longer resolves. -/
theorem c1_scope_truncation_witness :
    ∃ snl', runOps ⟨[], [⟨0, some 0⟩]⟩
        (ScopeOp.openS none :: ([ScopeOp.declareS 7 0] ++ [ScopeOp.closeS])) = some snl' ∧
      snl'.name_list_.length = 0 ∧
      snl'.current_scope_ = [⟨0, some 0⟩] ∧
      GetBlongsToScope snl'.name_list_ snl'.current_scope_ 7 = none :=
  c1_scope_truncation ⟨[], [⟨0, some 0⟩]⟩ none [ScopeOp.declareS 7 0] 7
    (Balanced.declare 7 0 Balanced.nil) (Or.inl (by simp)) (by simp)

/-! ## Claim C2 -/

/-- C2: `GetBlongsToScope` walks from the innermost scope outward (across
scope and function boundaries — the walk never inspects owners) and returns
the first scope whose `IsBelongsToScope` finds the name, paired with that
scope's owner function; it returns absent exactly when no scope in the chain
contains the name. -/
theorem c2_resolve_first_match (tbl : List ScopeName) (chain : List NameScope) (name : Nat) :
    (GetBlongsToScope tbl chain name = none ↔
      ∀ s ∈ chain, IsBelongsToScope tbl s name = none) ∧
    (∀ pre s rest, chain = pre ++ s :: rest →
      (∀ p ∈ pre, IsBelongsToScope tbl p name = none) →
      (IsBelongsToScope tbl s name).isSome →
      GetBlongsToScope tbl chain name = some (s, s.owner_)) := by
  constructor
  · induction chain with
    | nil => simp [GetBlongsToScope]
    | cons s rest ih =>
      rcases hIs : IsBelongsToScope tbl s name with _ | r0
      · rw [GetBlongsToScope, if_neg (by simp [hIs]), ih]
        constructor
        · intro hall q hq
          rcases List.mem_cons.mp hq with rfl | hq
          · exact hIs
          · exact hall q hq
        · intro hall q hq
          exact hall q (List.mem_cons_of_mem _ hq)
      · rw [GetBlongsToScope, if_pos (by simp [hIs])]
        constructor
        · intro h
          exact absurd h (by simp)
        · intro hall
          exact absurd (hall s (List.mem_cons_self s rest)) (by simp [hIs])
  · intro pre
    induction pre generalizing chain with
    | nil =>
      intro s rest hc hpre hs
      subst hc
      rw [List.nil_append, GetBlongsToScope, if_pos hs]
    | cons p pre ih =>
      intro s rest hc hpre hs
      subst hc
      rw [List.cons_append, GetBlongsToScope,
        if_neg (by simp [hpre p (List.mem_cons_self p pre)])]
      exact ih _ _ _ rfl (fun q hq => hpre q (List.mem_cons_of_mem _ hq)) hs

/-- Witness for C2, the nested-function scenario: name 7 is declared in the
scope owned by the outer function (pointer 0); the innermost scope belongs to
the nested function (pointer 1).  Resolution walks past the inner scope and
returns the outer scope with owner 0, distinct from the current function 1. -/
theorem c2_resolve_first_match_witness :
    GetBlongsToScope [⟨7, 3⟩] [⟨1, some 1⟩, ⟨0, some 0⟩] 7 =
      some (⟨0, some 0⟩, some 0) ∧ (some 0 : Option Nat) ≠ some 1 :=
  ⟨(c2_resolve_first_match [⟨7, 3⟩] [⟨1, some 1⟩, ⟨0, some 0⟩] 7).2
      [⟨1, some 1⟩] ⟨0, some 0⟩ [] rfl (by decide) (by decide),
    by decide⟩

/-! ## Claim C9 -/

/-- C9: a `NameScope` constructed without an owner argument inherits the
innermost existing scope's owner; constructing with no owner and no existing
scope dereferences the null `previous_` pointer (modelled as the `none`
failure of `openScope`); and the failure is unreachable whenever any scope
already exists. -/
theorem c9_open_scope_owner (snl : ScopeNameList) :
    (∀ s rest, snl.current_scope_ = s :: rest →
      openScope snl none = some { snl with current_scope_ :=
        ⟨snl.name_list_.length, s.owner_⟩ :: snl.current_scope_ }) ∧
    (snl.current_scope_ = [] → openScope snl none = none) ∧
    (snl.current_scope_ ≠ [] → ∀ o, (openScope snl o).isSome) := by
  refine ⟨?_, ?_, ?_⟩
  · intro s rest hc
    unfold openScope
    rw [hc]
  · intro hc
    unfold openScope
    rw [hc]
  · intro hne o
    obtain ⟨ow, ho⟩ := openScope_isSome snl o (Or.inl hne)
    rw [ho]
    rfl

/-- Witness for C9: with one scope owned by function 3 open, an ownerless
`NameScope` inherits owner 3; on the empty chain the ownerless constructor
fails; with a scope present construction always succeeds. -/
theorem c9_open_scope_owner_witness :
    openScope ⟨[], [⟨0, some 3⟩]⟩ none =
      some ⟨[], [⟨0, some 3⟩, ⟨0, some 3⟩]⟩ ∧
    openScope ⟨[], []⟩ none = none ∧
    (openScope ⟨[], [⟨0, some 3⟩]⟩ (some 4)).isSome := by
  refine ⟨?_, ?_, ?_⟩
  · have h := (c9_open_scope_owner ⟨[], [⟨0, some 3⟩]⟩).1 ⟨0, some 3⟩ [] rfl
    simpa using h
  · exact (c9_open_scope_owner ⟨[], []⟩).2.1 rfl
  · exact (c9_open_scope_owner ⟨[], [⟨0, some 3⟩]⟩).2.2 (by simp) (some 4)

/-! ## Claim C10 -/

/-- C10: name lookup compares `String` pointers, not character content — the
free `text` function exposes that nothing in `IsBelongsToScope` or
`GetBlongsToScope` depends on contents.  Lookup succeeds exactly when the
queried pointer itself is stored in the scope's slice of the table, so after
declaring pointer `p`, a different pointer `q` with identical text is not
found. -/
theorem c10_pointer_identity (text : Nat → String) (p q reg : Nat) (s : NameScope)
    (tbl : List ScopeName) (hpq : p ≠ q) (htext : text p = text q)
    (hstart : s.start_ ≤ tbl.length)
    (hq : ∀ sn ∈ tbl, sn.name_ ≠ q) :
    (∀ name, (IsBelongsToScope tbl s name).isSome ↔
      name ∈ (tbl.drop s.start_).map ScopeName.name_) ∧
    (IsBelongsToScope (tbl ++ [⟨p, reg⟩]) s p).isSome ∧
    IsBelongsToScope (tbl ++ [⟨p, reg⟩]) s q = none ∧
    (GetBlongsToScope (tbl ++ [⟨p, reg⟩]) [s] p).isSome ∧
    GetBlongsToScope (tbl ++ [⟨p, reg⟩]) [s] q = none := by
  have hdrop : (tbl ++ [(⟨p, reg⟩ : ScopeName)]).drop s.start_ =
      tbl.drop s.start_ ++ [⟨p, reg⟩] := by
    rw [List.drop_append_of_le_length hstart]
  have hfound : (IsBelongsToScope (tbl ++ [⟨p, reg⟩]) s p).isSome := by
    unfold IsBelongsToScope
    rw [hdrop]
    simp [List.find?_isSome]
  have hmiss : IsBelongsToScope (tbl ++ [⟨p, reg⟩]) s q = none := by
    unfold IsBelongsToScope
    rw [hdrop, List.find?_eq_none.mpr]
    · rfl
    · intro sn hsn
      rcases List.mem_append.mp hsn with hsn | hsn
      · simpa using hq sn (List.drop_subset _ _ hsn)
      · simp at hsn
        simp [hsn]
        exact hpq
  refine ⟨?_, hfound, hmiss, ?_, ?_⟩
  · intro name
    unfold IsBelongsToScope
    rw [Option.isSome_map', List.find?_isSome]
    constructor
    · rintro ⟨sn, hsn, hpred⟩
      exact List.mem_map.mpr ⟨sn, hsn, by simpa using hpred⟩
    · rintro hmem
      obtain ⟨sn, hsn, hname⟩ := List.mem_map.mp hmem
      exact ⟨sn, hsn, by simp [hname]⟩
  · rw [GetBlongsToScope, if_pos hfound]
    rfl
  · rw [GetBlongsToScope, if_neg (by simp [hmiss]), GetBlongsToScope]

/-- Witness for C10: pointers 0 and 1 both carry the text "x"; after pointer
0 is declared, looking up pointer 1 fails while pointer 0 succeeds. -/
theorem c10_pointer_identity_witness :
    ((IsBelongsToScope ([] ++ [⟨0, 5⟩]) ⟨0, some 0⟩ 0).isSome ∧
      IsBelongsToScope ([] ++ [⟨0, 5⟩]) ⟨0, some 0⟩ 1 = none) ∧
    ((fun _ => "x") 0 : String) = (fun _ => "x") 1 :=
  ⟨⟨(c10_pointer_identity (fun _ => "x") 0 1 5 ⟨0, some 0⟩ [] (by decide) rfl
        (by decide) (by simp)).2.1,
    (c10_pointer_identity (fun _ => "x") 0 1 5 ⟨0, some 0⟩ [] (by decide) rfl
        (by decide) (by simp)).2.2.1⟩, rfl⟩

/-! ## Claim C5 -/

/-- C5: the register count (`register_high_water_mark`) of the current
function is non-decreasing across every lowering handler; in particular
`SetNextRegister` never changes it, the clamped `SetRegisterCount` never
lowers it, and the `LocalNameListStatement` handler's register-count reset
after lowering the initializer list (a `visitStmt` step) never lowers it. -/
theorem c5_register_count_monotone :
    (∀ (f : Function) (r : Nat),
      (f.SetNextRegister r).register_count_ = f.register_count_) ∧
    (∀ (f : Function) (c : Nat),
      f.register_count_ ≤ (f.SetRegisterCount c).register_count_) ∧
    (∀ (s : Stmt) (vs : CGV),
      (curFunc vs).register_count_ ≤ (curFunc (visitStmt s vs)).register_count_) ∧
    (∀ (e : Expr) (vs : CGV),
      (curFunc vs).register_count_ ≤ (curFunc (visitExpr e vs)).register_count_) ∧
    (∀ (el : ExprList) (vs : CGV),
      (curFunc vs).register_count_ ≤ (curFunc (visitExprList el vs)).register_count_) ∧
    (∀ (stmts : List Stmt) (vs : CGV),
      (curFunc vs).register_count_ ≤ (curFunc (visitBlock stmts vs)).register_count_) :=
  ⟨fun _ _ => rfl,
   fun f c => Nat.le_max_left f.register_count_ c,
   fun s vs => (stepOK_visitStmt s vs).2.2.1,
   fun e vs => (stepOK_visitExpr e vs).2.2.1,
   fun el vs => (stepOK_visitExprList el vs).2.2.1,
   fun stmts vs => (stepOK_visitBlock stmts vs).2.2.1⟩

/-! ## Claim C8 -/

/-- Counterexample to C8 as stated: lowering an empty chunk from the initial
visitor state (`func_` null) leaves the newly created function current —
`Visit(Chunk *)` never restores the previously current function context. -/
theorem c8_chunk_counterexample :
    (visitChunk chunkEmpty initState).func_ ≠ initState.func_ := by
  decide

theorem getD_append_length {α : Type} (l : List α) (a d : α) :
    (l ++ [a]).getD l.length d = a := by
  induction l with
  | nil => rfl
  | cons x xs ih => simpa using ih

/-- C8 as amended: `Visit(Chunk *)` creates a new Function Context whose
superior is the previously current one, makes it current, and lowers the
chunk's body in it; the new context remains current when the handler
returns (the previous context is not restored). -/
theorem c8_chunk_new_context (c : Chunk) (vs : CGV) :
    (visitChunk c vs).func_ = some vs.funcs.length ∧
    (visitChunk c vs).funcs.length = vs.funcs.length + 1 ∧
    (curFunc (visitChunk c vs)).superior_ = vs.func_ := by
  unfold visitChunk
  have h := stepOK_visitBlock c.block_
    { vs with
      funcs := vs.funcs ++ [(Function.SetBaseInfo default c.module_ 0).SetSuperior vs.func_],
      func_ := some vs.funcs.length }
  refine ⟨h.1, by rw [h.2.1]; simp, ?_⟩
  rw [h.2.2.2.1]
  show ((vs.funcs ++ [(Function.SetBaseInfo default c.module_ 0).SetSuperior vs.func_]).getD
    vs.funcs.length default).superior_ = vs.func_
  rw [getD_append_length]
  rfl

/-! ## Claim C3 -/

/-- The plain-rfl lemma `curFunc` ignores the `names_register_` field. -/
theorem curFunc_setNames (b : CGV) (X : List NameReg) :
    curFunc { b with names_register_ := X } = curFunc b := rfl

/-- C3: declaring a name already bound in the current scope returns `false`,
leaves the table untouched and reports the existing register through the
out-parameter; the `NameList` loop then records that register without
advancing the function's next-register cursor.  A fresh name returns `true`,
appends one `ScopeName`, and the loop allocates the candidate register,
advancing the cursor by one. -/
theorem c3_declare_semantics (vs : CGV) (s : NameScope) (rest : List NameScope)
    (n : NameTok) (i : Nat)
    (hchain : vs.scope_name_list_.current_scope_ = s :: rest)
    (hf : vs.func_ = some i) (hl : i < vs.funcs.length) :
    (∀ r, IsBelongsToScope vs.scope_name_list_.name_list_ s n.str_ = some r →
      (∀ reg, AddScopeName vs.scope_name_list_ s n.str_ reg =
        (false, r, vs.scope_name_list_)) ∧
      visitNameListName vs n =
        { vs with names_register_ := vs.names_register_ ++ [⟨r, n.line_⟩] }) ∧
    (IsBelongsToScope vs.scope_name_list_.name_list_ s n.str_ = none →
      (∀ reg, AddScopeName vs.scope_name_list_ s n.str_ reg = (true, reg,
        { vs.scope_name_list_ with name_list_ :=
          vs.scope_name_list_.name_list_ ++ [⟨n.str_, reg⟩] })) ∧
      (curFunc (visitNameListName vs n)).next_register_ =
        (curFunc vs).next_register_ + 1 ∧
      (visitNameListName vs n).scope_name_list_.name_list_ =
        vs.scope_name_list_.name_list_ ++ [⟨n.str_, (curFunc vs).next_register_⟩] ∧
      (visitNameListName vs n).names_register_ =
        vs.names_register_ ++ [⟨(curFunc vs).next_register_, n.line_⟩]) := by
  constructor
  · intro r hIs
    refine ⟨fun reg => by unfold AddScopeName; rw [hIs], ?_⟩
    unfold visitNameListName
    simp only [hchain, AddScopeName, hIs]
    rfl
  · intro hIs
    have hred : visitNameListName vs n =
        { withFunc { vs with scope_name_list_ :=
            { vs.scope_name_list_ with name_list_ := vs.scope_name_list_.name_list_ ++
              [⟨n.str_, (curFunc vs).GetNextRegister⟩] } }
            (fun f => f.AllocaNextRegister.2) with
          names_register_ := vs.names_register_ ++
            [⟨(curFunc vs).GetNextRegister, n.line_⟩] } := by
      unfold visitNameListName
      simp only [hchain, AddScopeName, hIs, if_true]
      rw [withFunc_names]
    refine ⟨fun reg => by unfold AddScopeName; rw [hIs], ?_, ?_, ?_⟩
    · have hcur : curFunc (visitNameListName vs n) =
          (curFunc { vs with scope_name_list_ :=
            { vs.scope_name_list_ with name_list_ := vs.scope_name_list_.name_list_ ++
              [⟨n.str_, (curFunc vs).GetNextRegister⟩] } }).AllocaNextRegister.2 := by
        rw [hred, curFunc_setNames]
        exact curFunc_withFunc _ _ i hf hl
      rw [hcur]
      rfl
    · rw [hred]
      exact congrArg ScopeNameList.name_list_ (withFunc_scope _ _)
    · rw [hred]
      exact congrArg CGV.names_register_ rfl

/-- Witness for C3: in `declState` (name 5 bound at register 0, cursor at 1),
re-declaring name 5 returns false with register 0 and does not move the
cursor, while declaring the fresh name 6 appends it at register 1 and
advances the cursor to 2. -/
theorem c3_declare_semantics_witness :
    (AddScopeName ⟨[⟨5, 0⟩], [⟨0, some 0⟩]⟩ ⟨0, some 0⟩ 5 1 =
      (false, 0, ⟨[⟨5, 0⟩], [⟨0, some 0⟩]⟩)) ∧
    visitNameListName declState ⟨5, 9⟩ =
      { declState with names_register_ := [⟨0, 9⟩] } ∧
    (curFunc (visitNameListName declState ⟨6, 9⟩)).next_register_ = 2 ∧
    (visitNameListName declState ⟨6, 9⟩).scope_name_list_.name_list_ =
      [⟨5, 0⟩, ⟨6, 1⟩] ∧
    (visitNameListName declState ⟨6, 9⟩).names_register_ = [⟨1, 9⟩] := by
  have hre := (c3_declare_semantics declState ⟨0, some 0⟩ [] ⟨5, 9⟩ 0
    rfl rfl (by decide)).1 0 (by decide)
  have hnew := (c3_declare_semantics declState ⟨0, some 0⟩ [] ⟨6, 9⟩ 0
    rfl rfl (by decide)).2 (by decide)
  exact ⟨hre.1 1, hre.2, hnew.2.1, hnew.2.2.1, hnew.2.2.2⟩

/-! ## Claim C4 -/

/-- The current function after `Visit(Block *)` is some intermediate function
state with the cursor reset to the entry register top and a final set-top
instruction appended at that register. -/
theorem visitBlock_curFunc (stmts : List Stmt) (vs : CGV) (i : Nat)
    (hf : vs.func_ = some i) (hl : i < vs.funcs.length) :
    ∃ F1 : Function,
      curFunc (visitBlock stmts vs) =
        (F1.SetNextRegister (curFunc vs).next_register_).AddInstruction
          (Instruction.ACode OpType.SetTop (curFunc vs).next_register_) 0 := by
  have ho : openScope vs.scope_name_list_ vs.func_ = some
      { vs.scope_name_list_ with current_scope_ :=
        ⟨vs.scope_name_list_.name_list_.length, some i⟩ ::
          vs.scope_name_list_.current_scope_ } := by
    rw [hf]
    rfl
  rw [visitBlock_some stmts vs _ ho]
  have hS := stepOK_visitStmts stmts
    { vs with scope_name_list_ := { vs.scope_name_list_ with current_scope_ :=
        ⟨vs.scope_name_list_.name_list_.length, some i⟩ ::
          vs.scope_name_list_.current_scope_ } }
  refine ⟨curFunc (stmts.foldl (fun v s => visitStmt s v)
    { vs with scope_name_list_ := { vs.scope_name_list_ with current_scope_ :=
        ⟨vs.scope_name_list_.name_list_.length, some i⟩ ::
          vs.scope_name_list_.current_scope_ } }), ?_⟩
  have hfun : (stmts.foldl (fun v s => visitStmt s v)
      { vs with scope_name_list_ := { vs.scope_name_list_ with current_scope_ :=
          ⟨vs.scope_name_list_.name_list_.length, some i⟩ ::
            vs.scope_name_list_.current_scope_ } }).func_ = some i := by
    rw [hS.1]; exact hf
  have hlen : i < (stmts.foldl (fun v s => visitStmt s v)
      { vs with scope_name_list_ := { vs.scope_name_list_ with current_scope_ :=
          ⟨vs.scope_name_list_.name_list_.length, some i⟩ ::
            vs.scope_name_list_.current_scope_ } }).funcs.length := by
    rw [hS.2.1]; exact hl
  exact curFunc_withFunc _ _ i hfun hlen

/-- C4: after `Visit(Block *)` finishes, the current function's
`next_register` equals its value at block entry, and the final instruction of
the function's stream is a set-stack-top instruction whose operand is that
restored register value, appended after all statements were lowered. -/
theorem c4_block_stack_rollback (stmts : List Stmt) (vs : CGV) (i : Nat)
    (hf : vs.func_ = some i) (hl : i < vs.funcs.length) :
    (curFunc (visitBlock stmts vs)).next_register_ = (curFunc vs).next_register_ ∧
    ∃ l, (curFunc (visitBlock stmts vs)).instructions_ =
      l ++ [(Instruction.ACode OpType.SetTop (curFunc vs).next_register_, 0)] := by
  obtain ⟨F1, hF⟩ := visitBlock_curFunc stmts vs i hf hl
  rw [hF]
  exact ⟨rfl, ⟨(F1.SetNextRegister (curFunc vs).next_register_).instructions_, rfl⟩⟩

/-- Witness for C4: lowering a block containing `local a = 1` from
`sampleState` restores the register cursor to 0 and ends with `SetTop 0`. -/
theorem c4_block_stack_rollback_witness :
    (curFunc (visitBlock [stmtLocalA] sampleState)).next_register_ =
      (curFunc sampleState).next_register_ ∧
    ∃ l, (curFunc (visitBlock [stmtLocalA] sampleState)).instructions_ =
      l ++ [(Instruction.ACode OpType.SetTop (curFunc sampleState).next_register_, 0)] :=
  c4_block_stack_rollback [stmtLocalA] sampleState 0 rfl (by decide)

/-! ## Claim C6 -/

/-- Reduction of the `Visit(NormalFuncCall *)` handler to its four stages:
lower the callee, fix the argument base one above the callee register, lower
the arguments, emit the call at the callee register. -/
theorem visitExpr_call (caller : Expr) (args : OptExprList) (vs : CGV) :
    visitExpr (.normalFuncCall caller args) vs =
      withFunc (visitOptExprList args (emitSetTop ((curFunc vs).GetNextRegister + 1)
          (visitExpr caller vs)))
        (fun f => f.AddInstruction
          (Instruction.ACode OpType.Call (curFunc vs).GetNextRegister) 0) := by
  rw [visitExpr]

/-- Lowering a terminator emits exactly one load-constant instruction whose
target register is the cursor at entry, and advances the cursor by one. -/
theorem visitTerminator_spec (t : TermToken) (vs : CGV) (i : Nat)
    (hf : vs.func_ = some i) (hl : i < vs.funcs.length) :
    ∃ idx, (curFunc (visitTerminator t vs)).instructions_ =
        (curFunc vs).instructions_ ++
          [(Instruction.ABCode OpType.LoadConst (curFunc vs).next_register_ idx, t.line)] ∧
      (curFunc (visitTerminator t vs)).next_register_ = (curFunc vs).next_register_ + 1 := by
  unfold visitTerminator
  rw [curFunc_withFunc vs _ i hf hl]
  cases t with
  | num v l =>
    refine ⟨((curFunc vs).AddConstNumber v).1, ?_, ?_⟩ <;>
      simp [Function.AddConstNumber, Function.AddInstruction, Function.AllocaNextRegister,
        addConst_instructions, addConst_next_register, TermToken.line]
  | str sp l =>
    refine ⟨((curFunc vs).AddConstString sp).1, ?_, ?_⟩ <;>
      simp [Function.AddConstString, Function.AddInstruction, Function.AllocaNextRegister,
        addConst_instructions, addConst_next_register, TermToken.line]

/-- C6: `Visit(NormalFuncCall *)` lowers the callee into the register `R`
that was `next_register` at entry (shown for a terminator callee via its
load-constant target), then sets `next_register` to `R+1` and emits a
set-stack-top instruction with operand `R+1` immediately before lowering the
argument list, and finally emits a call instruction addressed at `R`. -/
theorem c6_func_call_layout (caller : Expr) (args : OptExprList) (vs : CGV) (i : Nat)
    (hf : vs.func_ = some i) (hl : i < vs.funcs.length) :
    visitExpr (.normalFuncCall caller args) vs =
      withFunc (visitOptExprList args (emitSetTop ((curFunc vs).GetNextRegister + 1)
          (visitExpr caller vs)))
        (fun f => f.AddInstruction
          (Instruction.ACode OpType.Call (curFunc vs).GetNextRegister) 0) ∧
    (curFunc (emitSetTop ((curFunc vs).GetNextRegister + 1)
        (visitExpr caller vs))).next_register_ = (curFunc vs).GetNextRegister + 1 ∧
    (curFunc (emitSetTop ((curFunc vs).GetNextRegister + 1)
        (visitExpr caller vs))).instructions_ =
      (curFunc (visitExpr caller vs)).instructions_ ++
        [(Instruction.ACode OpType.SetTop ((curFunc vs).GetNextRegister + 1), 0)] ∧
    (curFunc (visitExpr (.normalFuncCall caller args) vs)).instructions_ =
      (curFunc (visitOptExprList args (emitSetTop ((curFunc vs).GetNextRegister + 1)
          (visitExpr caller vs)))).instructions_ ++
        [(Instruction.ACode OpType.Call (curFunc vs).GetNextRegister, 0)] ∧
    (∀ t, caller = .terminator t → ∃ idx,
      (curFunc (visitExpr caller vs)).instructions_ = (curFunc vs).instructions_ ++
        [(Instruction.ABCode OpType.LoadConst (curFunc vs).GetNextRegister idx, t.line)]) := by
  have h1 := stepOK_visitExpr caller vs
  have hf1 : (visitExpr caller vs).func_ = some i := by rw [h1.1]; exact hf
  have hl1 : i < (visitExpr caller vs).funcs.length := by rw [h1.2.1]; exact hl
  have hcur2 : curFunc (emitSetTop ((curFunc vs).GetNextRegister + 1)
      (visitExpr caller vs)) =
      ((curFunc (visitExpr caller vs)).SetNextRegister
        ((curFunc vs).GetNextRegister + 1)).AddInstruction
        (Instruction.ACode OpType.SetTop ((curFunc vs).GetNextRegister + 1)) 0 := by
    unfold emitSetTop
    exact curFunc_withFunc _ _ i hf1 hl1
  have h2 := stepOK_emit_top (visitExpr caller vs) ((curFunc vs).GetNextRegister + 1)
  have h3 := stepOK_visitOptExprList args
    (emitSetTop ((curFunc vs).GetNextRegister + 1) (visitExpr caller vs))
  have hf3 : (visitOptExprList args (emitSetTop ((curFunc vs).GetNextRegister + 1)
      (visitExpr caller vs))).func_ = some i := by
    rw [h3.1, h2.1]; exact hf1
  have hl3 : i < (visitOptExprList args (emitSetTop ((curFunc vs).GetNextRegister + 1)
      (visitExpr caller vs))).funcs.length := by
    rw [h3.2.1, h2.2.1]; exact hl1
  refine ⟨visitExpr_call caller args vs, ?_, ?_, ?_, ?_⟩
  · rw [hcur2]; rfl
  · rw [hcur2]; rfl
  · rw [visitExpr_call caller args vs, curFunc_withFunc _ _ i hf3 hl3]
    rfl
  · rintro t rfl
    obtain ⟨idx, hi, _⟩ := visitTerminator_spec t vs i hf hl
    rw [visitExpr]
    exact ⟨idx, hi⟩

/-- Witness for C6: `f(1)` with the callee stood in by the literal 9, from
`sampleState`: after the callee lands in register 0, the stack top is fixed
at register 1 before the argument is lowered, and the final instruction is a
call addressed at register 0. -/
theorem c6_func_call_layout_witness :
    (curFunc (emitSetTop ((curFunc sampleState).GetNextRegister + 1)
        (visitExpr (.terminator (.num 9 1)) sampleState))).next_register_ =
      (curFunc sampleState).GetNextRegister + 1 ∧
    (curFunc (visitExpr (.normalFuncCall (.terminator (.num 9 1))
        (.withArgs (.cons (.terminator (.num 1 1)) .nil))) sampleState)).instructions_ =
      (curFunc (visitOptExprList (.withArgs (.cons (.terminator (.num 1 1)) .nil))
          (emitSetTop ((curFunc sampleState).GetNextRegister + 1)
            (visitExpr (.terminator (.num 9 1)) sampleState)))).instructions_ ++
        [(Instruction.ACode OpType.Call (curFunc sampleState).GetNextRegister, 0)] :=
  ⟨(c6_func_call_layout (.terminator (.num 9 1))
      (.withArgs (.cons (.terminator (.num 1 1)) .nil)) sampleState 0 rfl (by decide)).2.1,
   (c6_func_call_layout (.terminator (.num 9 1))
      (.withArgs (.cons (.terminator (.num 1 1)) .nil)) sampleState 0 rfl
      (by decide)).2.2.2.1⟩

/-! ## Claim C7 -/

/-- Splitting the `Visit(ExpressionList *)` loop at any point: the loop over
a concatenation runs the prefix first, with the base register advanced by the
prefix length for the suffix. -/
theorem visitExprListAux_append : ∀ (xs ys : ExprList) (reg : Nat) (vs : CGV),
    visitExprListAux (xs.append ys) reg vs =
      visitExprListAux ys (reg + xs.length) (visitExprListAux xs reg vs)
  | .nil, ys, reg, vs => by
    rw [ExprList.append, visitExprListAux]
    simp [ExprList.length]
  | .cons e rest, ys, reg, vs => by
    rw [ExprList.append, visitExprListAux, visitExprListAux,
      visitExprListAux_append rest ys (reg + 1) (visitExpr e (emitSetTop reg vs))]
    have h : reg + 1 + rest.length = reg + (ExprList.cons e rest).length := by
      simp [ExprList.length]
      omega
    rw [h]

/-- C7: in `Visit(ExpressionList *)` with base register `B` (`next_register`
at entry), before lowering the i-th expression (here: the one after a prefix
`xs` of length i) the handler resets `next_register` to `B+i` and emits a
set-stack-top instruction with operand `B+i`; a terminator expression then
lands its load-constant in register `B+i` regardless of what earlier
expressions allocated. -/
theorem c7_exprlist_layout (xs : ExprList) (e : Expr) (ys : ExprList) (vs : CGV) (i : Nat)
    (hf : vs.func_ = some i) (hl : i < vs.funcs.length) :
    visitExprList (xs.append (.cons e ys)) vs =
      visitExprListAux ys ((curFunc vs).GetNextRegister + xs.length + 1)
        (visitExpr e (emitSetTop ((curFunc vs).GetNextRegister + xs.length)
          (visitExprListAux xs (curFunc vs).GetNextRegister vs))) ∧
    (curFunc (emitSetTop ((curFunc vs).GetNextRegister + xs.length)
        (visitExprListAux xs (curFunc vs).GetNextRegister vs))).next_register_ =
      (curFunc vs).GetNextRegister + xs.length ∧
    (curFunc (emitSetTop ((curFunc vs).GetNextRegister + xs.length)
        (visitExprListAux xs (curFunc vs).GetNextRegister vs))).instructions_ =
      (curFunc (visitExprListAux xs (curFunc vs).GetNextRegister vs)).instructions_ ++
        [(Instruction.ACode OpType.SetTop ((curFunc vs).GetNextRegister + xs.length), 0)] ∧
    (∀ t, e = .terminator t → ∃ idx,
      (curFunc (visitExpr e (emitSetTop ((curFunc vs).GetNextRegister + xs.length)
          (visitExprListAux xs (curFunc vs).GetNextRegister vs)))).instructions_ =
        (curFunc (emitSetTop ((curFunc vs).GetNextRegister + xs.length)
          (visitExprListAux xs (curFunc vs).GetNextRegister vs))).instructions_ ++
          [(Instruction.ABCode OpType.LoadConst
            ((curFunc vs).GetNextRegister + xs.length) idx, t.line)]) := by
  have hP := stepOK_visitExprListAux xs (curFunc vs).GetNextRegister vs
  have hfP : (visitExprListAux xs (curFunc vs).GetNextRegister vs).func_ = some i := by
    rw [hP.1]; exact hf
  have hlP : i < (visitExprListAux xs (curFunc vs).GetNextRegister vs).funcs.length := by
    rw [hP.2.1]; exact hl
  have hcurS : curFunc (emitSetTop ((curFunc vs).GetNextRegister + xs.length)
      (visitExprListAux xs (curFunc vs).GetNextRegister vs)) =
      ((curFunc (visitExprListAux xs (curFunc vs).GetNextRegister vs)).SetNextRegister
        ((curFunc vs).GetNextRegister + xs.length)).AddInstruction
        (Instruction.ACode OpType.SetTop ((curFunc vs).GetNextRegister + xs.length)) 0 := by
    unfold emitSetTop
    exact curFunc_withFunc _ _ i hfP hlP
  have hQ := stepOK_emit_top (visitExprListAux xs (curFunc vs).GetNextRegister vs)
    ((curFunc vs).GetNextRegister + xs.length)
  have hfQ : (emitSetTop ((curFunc vs).GetNextRegister + xs.length)
      (visitExprListAux xs (curFunc vs).GetNextRegister vs)).func_ = some i := by
    rw [hQ.1]; exact hfP
  have hlQ : i < (emitSetTop ((curFunc vs).GetNextRegister + xs.length)
      (visitExprListAux xs (curFunc vs).GetNextRegister vs)).funcs.length := by
    rw [hQ.2.1]; exact hlP
  refine ⟨?_, ?_, ?_, ?_⟩
  · rw [visitExprList, visitExprListAux_append, visitExprListAux]
  · rw [hcurS]; rfl
  · rw [hcurS]; rfl
  · rintro t rfl
    obtain ⟨idx, hi, _⟩ := visitTerminator_spec t
      (emitSetTop ((curFunc vs).GetNextRegister + xs.length)
        (visitExprListAux xs (curFunc vs).GetNextRegister vs)) i hfQ hlQ
    rw [visitExpr]
    refine ⟨idx, ?_⟩
    rw [hi, hcurS]
    rfl

/-- Witness for C7: the second expression of the list `(5, 6)` from
`sampleState` is lowered with the stack top fixed at register 1 and its
load-constant targets register 1. -/
theorem c7_exprlist_layout_witness :
    (curFunc (emitSetTop ((curFunc sampleState).GetNextRegister +
        (ExprList.cons (.terminator (.num 5 1)) .nil).length)
        (visitExprListAux (ExprList.cons (.terminator (.num 5 1)) .nil)
          (curFunc sampleState).GetNextRegister sampleState))).next_register_ =
      (curFunc sampleState).GetNextRegister +
        (ExprList.cons (.terminator (.num 5 1)) .nil).length ∧
    (∃ idx,
      (curFunc (visitExpr (.terminator (.num 6 2))
          (emitSetTop ((curFunc sampleState).GetNextRegister +
            (ExprList.cons (.terminator (.num 5 1)) .nil).length)
            (visitExprListAux (ExprList.cons (.terminator (.num 5 1)) .nil)
              (curFunc sampleState).GetNextRegister sampleState)))).instructions_ =
        (curFunc (emitSetTop ((curFunc sampleState).GetNextRegister +
            (ExprList.cons (.terminator (.num 5 1)) .nil).length)
            (visitExprListAux (ExprList.cons (.terminator (.num 5 1)) .nil)
              (curFunc sampleState).GetNextRegister sampleState))).instructions_ ++
          [(Instruction.ABCode OpType.LoadConst
            ((curFunc sampleState).GetNextRegister +
              (ExprList.cons (.terminator (.num 5 1)) .nil).length) idx,
            TermToken.line (.num 6 2))]) :=
  ⟨(c7_exprlist_layout (ExprList.cons (.terminator (.num 5 1)) .nil)
      (.terminator (.num 6 2)) .nil sampleState 0 rfl (by decide)).2.1,
   (c7_exprlist_layout (ExprList.cons (.terminator (.num 5 1)) .nil)
      (.terminator (.num 6 2)) .nil sampleState 0 rfl (by decide)).2.2.2
      (.num 6 2) rfl⟩

end luna
